import Mathlib

/-
Verification of the text-cleaning and counting pipeline of the
Obsidian-sentence-counter plugin.

The core of the repository (src/main.js) is a pipeline of regular-expression
rewrites over JavaScript strings.  We embed strings as `List Char` and each
`String.prototype.replace(regex, ...)` call as a left-to-right scan with a
deterministic per-position matcher (each regex used by the plugin has no
observable backtracking, so the leftmost-match/greedy semantics of the
JavaScript engine collapse to the deterministic matchers below).  The engine
tracks the previously consumed character of the ORIGINAL string so that the
multiline anchor carets and word boundaries of the source regexes are judged
exactly as JavaScript judges them (against the input of the `replace` call,
not against the replacement text).  Case-insensitive matching (the `i` flag)
is modelled by ASCII case folding, which is exact on the plugin's
letters-and-periods exception patterns.
-/

set_option maxRecDepth 4000

/-- The set matched by `\s` in JavaScript regexes, which is also the set
stripped by `String.prototype.trim`. -/
def isSpace (c : Char) : Bool :=
  decide (c.toNat = 9 ∨ c.toNat = 10 ∨ c.toNat = 11 ∨ c.toNat = 12 ∨ c.toNat = 13 ∨
    c.toNat = 32 ∨ c.toNat = 160 ∨ c.toNat = 5760 ∨ (8192 ≤ c.toNat ∧ c.toNat ≤ 8202) ∨
    c.toNat = 8232 ∨ c.toNat = 8233 ∨ c.toNat = 8239 ∨ c.toNat = 8287 ∨ c.toNat = 12288 ∨
    c.toNat = 65279)

/-- The set matched by `\w` in JavaScript regexes: `[A-Za-z0-9_]`. -/
def isWordChar (c : Char) : Bool :=
  decide ((65 ≤ c.toNat ∧ c.toNat ≤ 90) ∨ (97 ≤ c.toNat ∧ c.toNat ≤ 122) ∨
    (48 ≤ c.toNat ∧ c.toNat ≤ 57) ∨ c.toNat = 95)

/-- The set matched by `\d`: `[0-9]`. -/
def isDigitCh (c : Char) : Bool :=
  decide (48 ≤ c.toNat ∧ c.toNat ≤ 57)

/-- The character class `[-*_]` of the horizontal-rule regex. -/
def isHrChar (c : Char) : Bool :=
  c == '-' || c == '*' || c == '_'

/-- The sentence-terminator class `[.!?]` used by the sentence split. -/
def isTermCh (c : Char) : Bool :=
  c == '.' || c == '!' || c == '?'

/-- The backtick character (code point 96). -/
def btick : Char := Char.ofNat 96

/-- ASCII case folding to a numeric code, modelling the `i` regex flag on the
plugin's ASCII patterns: `A`-`Z` fold onto `a`-`z`, everything else is itself. -/
def foldC (c : Char) : Nat :=
  if 65 ≤ c.toNat ∧ c.toNat ≤ 90 then c.toNat + 32 else c.toNat

/-- `String.prototype.trim`: drop leading and trailing whitespace. -/
def trim (s : List Char) : List Char :=
  ((s.dropWhile isSpace).reverse.dropWhile isSpace).reverse

/-- `String.prototype.split('\n')`: split on every newline character.  The
result is never empty, and an input without newlines yields one segment. -/
def splitNl : List Char → List (List Char)
  | [] => [[]]
  | c :: rest =>
    if c = '\n' then [] :: splitNl rest
    else
      match splitNl rest with
      | [] => [[c]]
      | l :: ls => (c :: l) :: ls

/-- `Array.prototype.join('\n')`: re-join segments with single newlines. -/
def joinNl : List (List Char) → List Char
  | [] => []
  | [l] => l
  | l :: ls => l ++ '\n' :: joinNl ls

/-- `String.prototype.split(re)` for a regex matching maximal nonempty runs of
characters satisfying `p` (the plugin uses this shape with both `/\s+/` and
`/[.!?]+/`): the pieces between successive maximal runs, with empty leading and
trailing pieces retained, exactly as in JavaScript.  The fuel argument is the
input length, which bounds the recursion. -/
def splitRunsF (p : Char → Bool) : Nat → List Char → List (List Char)
  | _, [] => [[]]
  | 0, s => [s]
  | fuel + 1, c :: cs =>
    match (c :: cs).drop ((c :: cs).takeWhile (fun x => !(p x))).length with
    | [] => [(c :: cs).takeWhile (fun x => !(p x))]
    | r :: rs =>
      (c :: cs).takeWhile (fun x => !(p x)) ::
        splitRunsF p fuel ((r :: rs).drop ((r :: rs).takeWhile p).length)

/-- Split on maximal nonempty runs of `p`-characters (JavaScript
`split(/p+/)`). -/
def splitRe (p : Char → Bool) (s : List Char) : List (List Char) :=
  splitRunsF p s.length s

/-- Whether a scan position is at a line start for the multiline `^` anchor:
the very beginning of the string, or just after a newline. -/
def lineStart : Option Char → Bool
  | none => true
  | some c => c == '\n'

/-- The previously consumed character after consuming `consumed` on top of a
scan state `prev`. -/
def stepPrev (prev : Option Char) (consumed : List Char) : Option Char :=
  match consumed.getLast? with
  | some c => some c
  | none => prev

/-- Global-replace engine: the semantics of `String.prototype.replace` with a
`g`-flagged regex.  At each position the matcher receives the previously
consumed character (for `^m` and `\b`) and the remaining text; `some (k, rep)`
means the regex matches the next `k` characters, which are replaced by `rep`,
and scanning resumes after them; `none` means no match at this position, so one
character is copied and the scan advances.  Structural recursion on a fuel
that the wrapper sets to the input length (every matcher of this development
consumes at least one character per match, so the fuel never runs out). -/
def rgo (m : Option Char → List Char → Option (Nat × List Char)) :
    Nat → Option Char → List Char → List Char
  | 0, _, s => s
  | _ + 1, _, [] => []
  | fuel + 1, prev, c :: rest =>
    match m prev (c :: rest) with
    | some (k, rep) =>
      rep ++ rgo m fuel (stepPrev prev ((c :: rest).take k)) ((c :: rest).drop k)
    | none => c :: rgo m fuel (some c) rest

/-- `text.replace(re, rep)` with a global regex modelled by matcher `m`. -/
def replaceAll (m : Option Char → List Char → Option (Nat × List Char))
    (s : List Char) : List Char :=
  rgo m s.length none s

/-- Wrap a pure-deletion matcher (one whose replacement text is always empty,
as in `replace(re, "")`) into the engine's matcher shape. -/
def asDel (f : Option Char → List Char → Option Nat) :
    Option Char → List Char → Option (Nat × List Char) := fun prev s =>
  match f prev s with
  | some k => some (k, [])
  | none => none

/-
### Matchers for the individual regexes of src/main.js

Each matcher decides whether its regex matches at the current position and, if
so, how many characters it consumes and what replaces them.  The analyses in
the comments record why the JavaScript backtracking search is deterministic
for each pattern.
-/

/-- First index at which a triple backtick starts, scanning left to right. -/
def findFence : List Char → Option Nat
  | a :: b :: c :: rest =>
    if a == btick && b == btick && c == btick then some 0
    else
      match findFence (b :: c :: rest) with
      | some i => some (i + 1)
      | none => none
  | _ => none

/-- Matcher for `/```[\s\S]*?```/g` (fenced code blocks, line 136): a triple
backtick, then the shortest span up to and including the next triple
backtick.  An unterminated fence never matches. -/
def mFenceK (_ : Option Char) (s : List Char) : Option Nat :=
  match s with
  | a :: b :: c :: rest =>
    if a == btick && b == btick && c == btick then
      match findFence rest with
      | some i => some (3 + i + 3)
      | none => none
    else none
  | _ => none

def mFence := asDel mFenceK

/-- Matcher for `` /`[^`]+`/g `` (inline code spans, line 137): a backtick, one
or more non-backticks (the greedy run is forced, since any shorter run is
followed by a non-backtick), then a backtick. -/
def mInlineK (_ : Option Char) (s : List Char) : Option Nat :=
  match s with
  | c :: rest =>
    if c == btick then
      match rest.drop (rest.takeWhile (fun x => !(x == btick))).length with
      | c2 :: _ =>
        if c2 == btick && !(rest.takeWhile (fun x => !(x == btick))).isEmpty then
          some (1 + (rest.takeWhile (fun x => !(x == btick))).length + 1)
        else none
      | [] => none
    else none
  | [] => none

def mInlineCode := asDel mInlineK

/-- The run of block-quote continuation lines `(?:^>.*\n?)*` of the callout
regex: each iteration consumes a `>` line (its content cannot contain a
newline) and, when present, its terminating newline; the loop stops at the
first line that does not begin with `>` or at end of input.  Fuel-bounded
structural recursion; the callers pass the remaining length as fuel. -/
def calloutTail : Nat → List Char → Nat
  | 0, _ => 0
  | _ + 1, [] => 0
  | fuel + 1, c :: rest =>
    if c == '>' then
      match rest.drop (rest.takeWhile (fun x => !(x == '\n'))).length with
      | nl :: r2 =>
        if nl == '\n' then
          1 + (rest.takeWhile (fun x => !(x == '\n'))).length + 1 +
            calloutTail fuel r2
        else 1 + (rest.takeWhile (fun x => !(x == '\n'))).length
      | [] => 1 + (rest.takeWhile (fun x => !(x == '\n'))).length
    else 0

/-- Matcher for `/^>\s*\[!\w+\][^\n]*\n?(?:^>.*\n?)*/gm` (callout blocks,
line 143): anchored at a line start, a `>`, greedy whitespace (which `\s`
allows to span newlines), the literal `[!`, a nonempty word-character run,
`]`, the rest of the header line, an optional newline, then every immediately
following block-quote line.  Each greedy piece is forced because the character
required next never belongs to the repeated class. -/
def mCalloutK (prev : Option Char) (s : List Char) : Option Nat :=
  if !(lineStart prev) then none else
  match s with
  | c :: r1 =>
    if c == '>' then
      match r1.drop (r1.takeWhile isSpace).length with
      | '[' :: '!' :: r3 =>
        if (r3.takeWhile isWordChar).isEmpty then none else
        match r3.drop (r3.takeWhile isWordChar).length with
        | ']' :: r5 =>
          match r5.drop (r5.takeWhile (fun x => !(x == '\n'))).length with
          | nl :: r7 =>
            if nl == '\n' then
              some (1 + (r1.takeWhile isSpace).length + 2 +
                (r3.takeWhile isWordChar).length + 1 +
                (r5.takeWhile (fun x => !(x == '\n'))).length + 1 +
                calloutTail r7.length r7)
            else none
          | [] =>
            some (1 + (r1.takeWhile isSpace).length + 2 +
              (r3.takeWhile isWordChar).length + 1 +
              (r5.takeWhile (fun x => !(x == '\n'))).length)
        | _ => none
      | _ => none
    else none
  | [] => none

def mCallout := asDel mCalloutK

/-- Largest index of a newline in a list, if any. -/
def lastNl : List Char → Option Nat
  | [] => none
  | c :: rest =>
    match lastNl rest with
    | some j => some (j + 1)
    | none => if c == '\n' then some 0 else none

/-- Matcher for `/^>\s*$/gm` (orphaned quote markers, line 145): a `>` at a
line start followed by whitespace up to a `$` position (end of input or just
before a newline).  Because `\s` itself matches newlines, the greedy run
backtracks to the LAST position inside the whitespace run that satisfies `$`:
the end of the input if the run reaches it, otherwise the final newline of the
run. -/
def mBareQuoteK (prev : Option Char) (s : List Char) : Option Nat :=
  if !(lineStart prev) then none else
  match s with
  | c :: r =>
    if c == '>' then
      if r.drop (r.takeWhile isSpace).length = [] then
        some (1 + (r.takeWhile isSpace).length)
      else
        match lastNl (r.takeWhile isSpace) with
        | some j => some (1 + j)
        | none => none
    else none
  | [] => none

def mBareQuote := asDel mBareQuoteK

/-- Case-insensitive literal match of pattern `p` against the head of `s`
(ASCII folding, the `i` flag on the exception patterns). -/
def ciHeadMatch : List Char → List Char → Bool
  | [], _ => true
  | _ :: _, [] => false
  | p :: ps, c :: cs => foldC p == foldC c && ciHeadMatch ps cs

/-- The `\b` assertion between the previously consumed character and the first
matched character: exactly one of the two sides is a word character (the edge
of the string counts as a non-word side). -/
def boundaryB (prev : Option Char) (c : Char) : Bool :=
  (match prev with
   | some p => isWordChar p
   | none => false) != isWordChar c

/-- The replacement string substituted for each period of an exception
(line 233 of src/main.js). -/
def periodPlaceholder : List Char := "PERIOD_PLACEHOLDER".toList

/-- The replacement string substituted for an ellipsis (line 237). -/
def ellipsisPlaceholder : List Char := "ELLIPSIS_PLACEHOLDER".toList

/-- `ex.replace(/\./g, "PERIOD_PLACEHOLDER")`: the exception with every period
replaced by the period placeholder. -/
def canon : List Char → List Char
  | [] => []
  | c :: rest => (if c = '.' then periodPlaceholder else [c]) ++ canon rest

/-- Matcher for ``new RegExp(`\b${escapedEx}`, "gi")`` (line 232): a word
boundary followed by the exception pattern, case-insensitively.  The match is
replaced by the exception's canonical spelling with its periods replaced by
the placeholder. -/
def mExc (ex : List Char) (prev : Option Char) (s : List Char) :
    Option (Nat × List Char) :=
  match s with
  | [] => none
  | c :: _ =>
    if boundaryB prev c && ciHeadMatch ex s then some (ex.length, canon ex)
    else none

/-- Matcher for `/\.{3}/g` (line 237): exactly three consecutive periods,
replaced by the ellipsis placeholder. -/
def mEllipsis (_ : Option Char) (s : List Char) : Option (Nat × List Char) :=
  match s with
  | a :: b :: c :: _ =>
    if a == '.' && b == '.' && c == '.' then some (3, ellipsisPlaceholder)
    else none
  | _ => none

/-- Lazy scan of `(.*?)` (no newlines) up to a two-character closing delimiter
`d d`: the least index at which `d d` starts, provided no newline occurs
before it. -/
def scanLazy2 (d : Char) : List Char → Option Nat
  | a :: b :: rest =>
    if a == d && b == d then some 0
    else if a == '\n' then none
    else
      match scanLazy2 d (b :: rest) with
      | some i => some (i + 1)
      | none => none
  | _ => none

/-- Lazy scan of `(.*?)` (no newlines) up to a one-character closing delimiter
`d`. -/
def scanLazy1 (d : Char) : List Char → Option Nat
  | a :: rest =>
    if a == d then some 0
    else if a == '\n' then none
    else
      match scanLazy1 d rest with
      | some i => some (i + 1)
      | none => none
  | [] => none

/-- Matcher for `/\[([^\]]+)\]\([^\)]+\)/g` (standard links, line 155):
`[label](target)` rewritten to `label`.  Both bracketed runs are forced to be
maximal, since the closing characters are excluded from the classes. -/
def mLink (_ : Option Char) (s : List Char) : Option (Nat × List Char) :=
  match s with
  | c :: rest =>
    if c == '[' then
      if (rest.takeWhile (fun x => !(x == ']'))).isEmpty then none else
      match rest.drop (rest.takeWhile (fun x => !(x == ']'))).length with
      | ']' :: '(' :: r3 =>
        if (r3.takeWhile (fun x => !(x == ')'))).isEmpty then none else
        match r3.drop (r3.takeWhile (fun x => !(x == ')'))).length with
        | ')' :: _ =>
          some (1 + (rest.takeWhile (fun x => !(x == ']'))).length + 2 +
              (r3.takeWhile (fun x => !(x == ')'))).length + 1,
            rest.takeWhile (fun x => !(x == ']')))
        | _ => none
      | _ => none
    else none
  | [] => none

/-- Matcher for `/\[\[([^\]|]+)\|([^\]]+)\]\]/g` (piped wiki-links, line 158):
`[[target|label]]` rewritten to `label`. -/
def mWikiPiped (_ : Option Char) (s : List Char) : Option (Nat × List Char) :=
  match s with
  | a :: b :: rest =>
    if a == '[' && b == '[' then
      if (rest.takeWhile (fun x => !(x == ']') && !(x == '|'))).isEmpty then none else
      match rest.drop (rest.takeWhile (fun x => !(x == ']') && !(x == '|'))).length with
      | '|' :: r3 =>
        if (r3.takeWhile (fun x => !(x == ']'))).isEmpty then none else
        match r3.drop (r3.takeWhile (fun x => !(x == ']'))).length with
        | ']' :: ']' :: _ =>
          some (2 + (rest.takeWhile (fun x => !(x == ']') && !(x == '|'))).length + 1 +
              (r3.takeWhile (fun x => !(x == ']'))).length + 2,
            r3.takeWhile (fun x => !(x == ']')))
        | _ => none
      | _ => none
    else none
  | _ => none

/-- Matcher for `/\[\[([^\]]+)\]\]/g` (bare wiki-links, line 159):
`[[target]]` rewritten to `target`. -/
def mWikiBare (_ : Option Char) (s : List Char) : Option (Nat × List Char) :=
  match s with
  | a :: b :: rest =>
    if a == '[' && b == '[' then
      if (rest.takeWhile (fun x => !(x == ']'))).isEmpty then none else
      match rest.drop (rest.takeWhile (fun x => !(x == ']'))).length with
      | ']' :: ']' :: _ =>
        some (2 + (rest.takeWhile (fun x => !(x == ']'))).length + 2,
          rest.takeWhile (fun x => !(x == ']')))
      | _ => none
    else none
  | _ => none

/-- Matcher for `/!\[([^\]]*)\]\([^\)]+\)/g` (images, line 162): the whole
image syntax is deleted; the alt text may be empty. -/
def mImageK (_ : Option Char) (s : List Char) : Option Nat :=
  match s with
  | a :: b :: rest =>
    if a == '!' && b == '[' then
      match rest.drop (rest.takeWhile (fun x => !(x == ']'))).length with
      | ']' :: '(' :: r3 =>
        if (r3.takeWhile (fun x => !(x == ')'))).isEmpty then none else
        match r3.drop (r3.takeWhile (fun x => !(x == ')'))).length with
        | ')' :: _ =>
          some (2 + (rest.takeWhile (fun x => !(x == ']'))).length + 2 +
            (r3.takeWhile (fun x => !(x == ')'))).length + 1)
        | _ => none
      | _ => none
    else none
  | _ => none

def mImage := asDel mImageK

/-- Matcher for `/(\*\*|__)(.*?)\1/g` (bold, line 165): a double `*` or double
`_` delimiter, the lazily shortest newline-free inner text, and the matching
closing delimiter; rewritten to the inner text. -/
def mBold (_ : Option Char) (s : List Char) : Option (Nat × List Char) :=
  match s with
  | a :: b :: rest =>
    if a == '*' && b == '*' then
      match scanLazy2 '*' rest with
      | some i => some (2 + i + 2, rest.take i)
      | none => none
    else if a == '_' && b == '_' then
      match scanLazy2 '_' rest with
      | some i => some (2 + i + 2, rest.take i)
      | none => none
    else none
  | _ => none

/-- Matcher for `/(\*|_)(.*?)\1/g` (italics, line 166): single-character
delimiter version of the bold matcher. -/
def mEmph (_ : Option Char) (s : List Char) : Option (Nat × List Char) :=
  match s with
  | a :: rest =>
    if a == '*' then
      match scanLazy1 '*' rest with
      | some i => some (1 + i + 1, rest.take i)
      | none => none
    else if a == '_' then
      match scanLazy1 '_' rest with
      | some i => some (1 + i + 1, rest.take i)
      | none => none
    else none
  | [] => none

/-- Matcher for `/~~(.*?)~~/g` (strikethrough, line 169). -/
def mStrike (_ : Option Char) (s : List Char) : Option (Nat × List Char) :=
  match s with
  | a :: b :: rest =>
    if a == '~' && b == '~' then
      match scanLazy2 '~' rest with
      | some i => some (2 + i + 2, rest.take i)
      | none => none
    else none
  | _ => none

/-- Matcher for `/==(.*?)==/g` (highlights, line 172). -/
def mHighlight (_ : Option Char) (s : List Char) : Option (Nat × List Char) :=
  match s with
  | a :: b :: rest =>
    if a == '=' && b == '=' then
      match scanLazy2 '=' rest with
      | some i => some (2 + i + 2, rest.take i)
      | none => none
    else none
  | _ => none

/-- Matcher for `/^#{1,6}\s+/gm` (headers, line 175): at a line start, one to
six `#` characters followed by at least one whitespace character (the greedy
whitespace run may span newlines).  A run of seven or more `#` never matches,
because every shorter prefix is followed by another `#`. -/
def mHeaderK (prev : Option Char) (s : List Char) : Option Nat :=
  if !(lineStart prev) then none else
  if (s.takeWhile (fun x => x == '#')).isEmpty then none else
  if 6 < (s.takeWhile (fun x => x == '#')).length then none else
  if ((s.drop (s.takeWhile (fun x => x == '#')).length).takeWhile isSpace).isEmpty then
    none
  else
    some ((s.takeWhile (fun x => x == '#')).length +
      ((s.drop (s.takeWhile (fun x => x == '#')).length).takeWhile isSpace).length)

def mHeader := asDel mHeaderK

/-- Matcher for `/^>\s*/gm` (block-quote markers, line 178): a `>` at a line
start and the maximal following whitespace run (which may span newlines). -/
def mQuoteMarkK (prev : Option Char) (s : List Char) : Option Nat :=
  if !(lineStart prev) then none else
  match s with
  | c :: r =>
    if c == '>' then some (1 + (r.takeWhile isSpace).length) else none
  | [] => none

def mQuoteMark := asDel mQuoteMarkK

/-- Matcher for `/^[\s]*[-*+]\s+/gm` (unordered list markers, line 181). -/
def mUListK (prev : Option Char) (s : List Char) : Option Nat :=
  if !(lineStart prev) then none else
  match s.drop (s.takeWhile isSpace).length with
  | b :: r2 =>
    if b == '-' || b == '*' || b == '+' then
      if (r2.takeWhile isSpace).isEmpty then none
      else some ((s.takeWhile isSpace).length + 1 + (r2.takeWhile isSpace).length)
    else none
  | [] => none

def mUList := asDel mUListK

/-- Matcher for `/^[\s]*\d+\.\s+/gm` (ordered list markers, line 182). -/
def mOListK (prev : Option Char) (s : List Char) : Option Nat :=
  if !(lineStart prev) then none else
  if ((s.drop (s.takeWhile isSpace).length).takeWhile isDigitCh).isEmpty then none else
  match (s.drop (s.takeWhile isSpace).length).drop
      ((s.drop (s.takeWhile isSpace).length).takeWhile isDigitCh).length with
  | '.' :: r2 =>
    if (r2.takeWhile isSpace).isEmpty then none
    else
      some ((s.takeWhile isSpace).length +
        ((s.drop (s.takeWhile isSpace).length).takeWhile isDigitCh).length + 1 +
        (r2.takeWhile isSpace).length)
  | _ => none

def mOList := asDel mOListK

/-- Matcher for `/^[\s]*[-*_]{3,}[\s]*$/gm` (horizontal rules, line 185): at a
line start, whitespace, at least three rule characters, then whitespace up to
a `$` position (end of input, or just before a newline — the trailing `\s*`
backtracks to the last such position inside its run, exactly as in the
orphaned-quote matcher). -/
def mHRuleK (prev : Option Char) (s : List Char) : Option Nat :=
  if !(lineStart prev) then none else
  if ((s.drop (s.takeWhile isSpace).length).takeWhile isHrChar).length < 3 then none else
  if ((s.drop (s.takeWhile isSpace).length).drop
        ((s.drop (s.takeWhile isSpace).length).takeWhile isHrChar).length).drop
      (((s.drop (s.takeWhile isSpace).length).drop
          ((s.drop (s.takeWhile isSpace).length).takeWhile isHrChar).length).takeWhile
        isSpace).length = [] then
    some ((s.takeWhile isSpace).length +
      ((s.drop (s.takeWhile isSpace).length).takeWhile isHrChar).length +
      (((s.drop (s.takeWhile isSpace).length).drop
          ((s.drop (s.takeWhile isSpace).length).takeWhile isHrChar).length).takeWhile
        isSpace).length)
  else
    match lastNl (((s.drop (s.takeWhile isSpace).length).drop
        ((s.drop (s.takeWhile isSpace).length).takeWhile isHrChar).length).takeWhile
      isSpace) with
    | some j =>
      some ((s.takeWhile isSpace).length +
        ((s.drop (s.takeWhile isSpace).length).takeWhile isHrChar).length + j)
    | none => none

def mHRule := asDel mHRuleK

/-- Matcher for `/<[^>]+>/g` (HTML-like tags, line 188). -/
def mHtmlK (_ : Option Char) (s : List Char) : Option Nat :=
  match s with
  | c :: rest =>
    if c == '<' then
      if (rest.takeWhile (fun x => !(x == '>'))).isEmpty then none else
      match rest.drop (rest.takeWhile (fun x => !(x == '>'))).length with
      | '>' :: _ => some (1 + (rest.takeWhile (fun x => !(x == '>'))).length + 1)
      | _ => none
    else none
  | [] => none

def mHtml := asDel mHtmlK

/-- Matcher for `/\s+/g` with replacement `" "` (whitespace collapsing,
line 198): a maximal nonempty whitespace run becomes one space. -/
def mWsCollapse (_ : Option Char) (s : List Char) : Option (Nat × List Char) :=
  if (s.takeWhile isSpace).isEmpty then none
  else some ((s.takeWhile isSpace).length, [' '])

/-
### The core pipeline of src/main.js
-/

/-- The two settings of `DEFAULT_SETTINGS` that the counting core reads
(`displayLocation` and `showWordCount` are consumed only by the UI layer). -/
structure AnalysisSettings where
  ignoreCallouts : Bool
  stripMarkdownFromCharCount : Bool
deriving DecidableEq

/-- The triple produced by one analysis pass (`updateCount`, lines 110-112). -/
structure AnalysisResult where
  sentenceCount : Nat
  wordCount : Nat
  charCount : Nat
deriving DecidableEq

/-- The opening frontmatter delimiter `---`. -/
def fmDelim : List Char := ['-', '-', '-']

/-- `text.startsWith('---')`. -/
def startsWithFm : List Char → Bool
  | '-' :: '-' :: '-' :: _ => true
  | _ => false

/-- The scan of `removeFrontmatter` (lines 252-257): the index of the first
line, counting from `i`, whose trimmed content is exactly `---`. -/
def fmCloseIdx : List (List Char) → Nat → Option Nat
  | [], _ => none
  | l :: ls, i => if trim l = fmDelim then some i else fmCloseIdx ls (i + 1)

/-- `removeFrontmatter` (src/main.js lines 248-261): if the text starts with
`---`, scan the lines from index 1 for a line trimming to `---`; on success
keep only the lines after it, rejoined with newlines; otherwise return the
text unchanged. -/
def removeFrontmatter (text : List Char) : List Char :=
  if startsWithFm text then
    match fmCloseIdx (splitNl text).tail 1 with
    | some endIndex => joinNl ((splitNl text).drop (endIndex + 1))
    | none => text
  else text

/-- `cleanText` (src/main.js lines 131-149): empty/whitespace-only guard, then
frontmatter removal, fenced code removal, inline code removal, and — when
`ignoreCallouts` is set — callout removal followed by orphaned quote-marker
removal. -/
def cleanText (settings : AnalysisSettings) (text : List Char) : List Char :=
  if text = [] ∨ trim text = [] then [] else
  if settings.ignoreCallouts then
    replaceAll mBareQuote
      (replaceAll mCallout
        (replaceAll mInlineCode (replaceAll mFence (removeFrontmatter text))))
  else
    replaceAll mInlineCode (replaceAll mFence (removeFrontmatter text))

/-- `stripMarkdown` (src/main.js lines 151-191): the fourteen rewrites in
source order. -/
def stripMarkdown (text : List Char) : List Char :=
  replaceAll mHtml
    (replaceAll mHRule
      (replaceAll mOList
        (replaceAll mUList
          (replaceAll mQuoteMark
            (replaceAll mHeader
              (replaceAll mHighlight
                (replaceAll mStrike
                  (replaceAll mEmph
                    (replaceAll mBold
                      (replaceAll mImage
                        (replaceAll mWikiBare
                          (replaceAll mWikiPiped
                            (replaceAll mLink text)))))))))))))

/-- `countCharacters` (src/main.js lines 193-203).  The `originalText`
argument is accepted, as in the source, but never used. -/
def countCharacters (settings : AnalysisSettings)
    (originalText cleanedText : List Char) : Nat :=
  if settings.stripMarkdownFromCharCount then
    (trim (replaceAll mWsCollapse (stripMarkdown cleanedText))).length
  else cleanedText.length

/-- `countWords` (src/main.js lines 205-215): trim, split on whitespace runs,
drop empty tokens, count. -/
def countWords (text : List Char) : Nat :=
  if trim text = [] then 0 else
  ((splitRe isSpace (trim text)).filter (fun w => 0 < w.length)).length

/-- The exception list of `countSentences` (lines 220-225), in source order. -/
def exceptions : List String :=
  ["Mr.", "Mrs.", "Ms.", "Dr.", "Prof.", "Sr.", "Jr.", "vs.", "etc.",
   "i.e.", "e.g.", "ca.", "cf.", "Inc.", "Ltd.", "Corp.", "Co.",
   "Ave.", "St.", "Rd.", "Blvd.", ".js", ".css", ".md", ".txt",
   "Ph.D.", "M.D.", "B.A.", "M.A.", "U.S.", "U.K.", "a.m.", "p.m."]

/-- The abbreviation pass of `countSentences` (lines 227-234): for each
exception in order, replace its word-boundary-anchored case-insensitive
occurrences by its placeholder form. -/
def applyExceptions (text : List Char) : List Char :=
  exceptions.foldl (fun t ex => replaceAll (mExc ex.toList) t) text

/-- `countSentences` (src/main.js lines 217-246): guard, abbreviation pass,
ellipsis pass, split on terminator runs, trim segments, count the nonempty
ones. -/
def countSentences (text : List Char) : Nat :=
  if trim text = [] then 0 else
  (((splitRe isTermCh (replaceAll mEllipsis (applyExceptions text))).map trim).filter
    (fun s => 0 < s.length)).length

/-- The analysis pipeline of `updateCount` (src/main.js lines 109-113): clean
once, then derive the three counts. -/
def analyze (settings : AnalysisSettings) (text : List Char) : AnalysisResult :=
  { sentenceCount := countSentences (cleanText settings text)
    wordCount := countWords (cleanText settings text)
    charCount := countCharacters settings text (cleanText settings text) }

namespace Legacy

/-- `removeFrontmatter` of src/unnamed/part_000 (lines 178-191), whose source
text is character-for-character the code of src/main.js lines 248-261. -/
def removeFrontmatter (text : List Char) : List Char :=
  if startsWithFm text then
    match fmCloseIdx (splitNl text).tail 1 with
    | some endIndex => joinNl ((splitNl text).drop (endIndex + 1))
    | none => text
  else text

end Legacy

/-
### Helper lemmas
-/

theorem char_eq_of_toNat_eq {a b : Char} (h : a.toNat = b.toNat) : a = b :=
  Char.ext (UInt32.eq_of_toBitVec_eq (BitVec.eq_of_toNat_eq h))

theorem takeWhile_len_le (p : Char → Bool) : ∀ l : List Char,
    (l.takeWhile p).length ≤ l.length := by
  intro l
  induction l with
  | nil => simp
  | cons a l ih =>
    by_cases h : p a
    · simpa [List.takeWhile_cons_of_pos h] using Nat.succ_le_succ ih
    · simp [List.takeWhile_cons_of_neg h]

theorem drop_eq_cons_len {l t : List Char} {n : Nat} {a : Char}
    (h : l.drop n = a :: t) : n + t.length + 1 = l.length := by
  have h2 := congrArg List.length h
  simp [List.length_drop] at h2
  have h3 : n < l.length := by
    by_contra hn
    have : l.drop n = [] := List.drop_eq_nil_of_le (by omega)
    rw [this] at h
    exact List.noConfusion h
  omega

theorem dropWhile_eq_nil_of_all {p : Char → Bool} : ∀ l : List Char,
    (∀ c ∈ l, p c = true) → l.dropWhile p = [] := by
  intro l
  induction l with
  | nil => simp
  | cons a l ih =>
    intro h
    rw [List.dropWhile_cons_of_pos (h a (by simp))]
    exact ih fun c hc => h c (by simp [hc])

theorem trim_eq_nil_of_all {s : List Char} (h : ∀ c ∈ s, isSpace c = true) :
    trim s = [] := by
  unfold trim
  rw [dropWhile_eq_nil_of_all s h]
  simp

theorem trim_len_le (s : List Char) : (trim s).length ≤ s.length := by
  unfold trim
  calc ((s.dropWhile isSpace).reverse.dropWhile isSpace).reverse.length
      = ((s.dropWhile isSpace).reverse.dropWhile isSpace).length := by
        simp
    _ ≤ (s.dropWhile isSpace).reverse.length := by
        have := (s.dropWhile isSpace).reverse.dropWhile_sublist isSpace
        exact this.length_le
    _ = (s.dropWhile isSpace).length := by simp
    _ ≤ s.length := (s.dropWhile_sublist isSpace).length_le

/-- The property of a matcher that makes its global replacement
length-nonincreasing: at every match the replacement plus the untouched
remainder fit inside the consumed input. -/
def MatcherOk (m : Option Char → List Char → Option (Nat × List Char)) : Prop :=
  ∀ prev s k rep, m prev s = some (k, rep) →
    rep.length + (s.length - k) ≤ s.length

theorem asDel_ok (f : Option Char → List Char → Option Nat) :
    MatcherOk (asDel f) := by
  intro prev s k rep h
  unfold asDel at h
  cases hf : f prev s with
  | none => rw [hf] at h; exact Option.noConfusion h
  | some j =>
    rw [hf] at h
    have h1 : j = k ∧ [] = rep := by
      have := Option.some.inj h
      exact ⟨congrArg Prod.fst this, congrArg Prod.snd this⟩
    obtain ⟨rfl, rfl⟩ := h1
    simp

theorem rgo_len_le (m : Option Char → List Char → Option (Nat × List Char))
    (hm : MatcherOk m) : ∀ (fuel : Nat) (prev : Option Char) (s : List Char),
    (rgo m fuel prev s).length ≤ s.length := by
  intro fuel
  induction fuel with
  | zero => intro prev s; simp [rgo]
  | succ f ih =>
    intro prev s
    cases s with
    | nil => simp [rgo]
    | cons c rest =>
      cases h : m prev (c :: rest) with
      | none =>
        simpa [rgo, h] using Nat.succ_le_succ (ih (some c) rest)
      | some kr =>
        obtain ⟨k, rep⟩ := kr
        have hb := hm prev (c :: rest) k rep h
        have hrec := ih (stepPrev prev ((c :: rest).take k)) ((c :: rest).drop k)
        simp only [rgo, h, List.length_append, List.length_drop,
          List.length_cons] at *
        omega

theorem replaceAll_len_le (m : Option Char → List Char → Option (Nat × List Char))
    (hm : MatcherOk m) (s : List Char) : (replaceAll m s).length ≤ s.length :=
  rgo_len_le m hm s.length none s

theorem rgo_id_of_none (m : Option Char → List Char → Option (Nat × List Char))
    (P : Char → Prop) (hm : ∀ prev s, (∀ c ∈ s, P c) → m prev s = none) :
    ∀ (fuel : Nat) (prev : Option Char) (s : List Char),
    (∀ c ∈ s, P c) → rgo m fuel prev s = s := by
  intro fuel
  induction fuel with
  | zero => intro prev s _; simp [rgo]
  | succ f ih =>
    intro prev s hs
    cases s with
    | nil => simp [rgo]
    | cons c rest =>
      rw [rgo, hm prev (c :: rest) hs]
      rw [ih (some c) rest fun x hx => hs x (by simp [hx])]

theorem mWsCollapse_ok : MatcherOk mWsCollapse := by
  intro prev s k rep h
  unfold mWsCollapse at h
  split at h
  · exact Option.noConfusion h
  · next hne =>
    have hinj := Option.some.inj h
    have hk : (s.takeWhile isSpace).length = k := congrArg Prod.fst hinj
    have hr : [' '] = rep := congrArg Prod.snd hinj
    have h1 : 0 < (s.takeWhile isSpace).length := by
      cases hq : s.takeWhile isSpace with
      | nil => rw [hq] at hne; simp at hne
      | cons x xs => simp [hq]
    have h2 := takeWhile_len_le isSpace s
    rw [← hr]
    simp only [List.length_cons, List.length_nil]
    omega

theorem mBold_ok : MatcherOk mBold := by
  intro prev s k rep h
  unfold mBold at h
  split at h
  · next a b rest =>
    have hrep : ∃ i, rep = rest.take i ∧ k = 2 + i + 2 := by
      split at h
      · split at h
        · next i _ =>
          have hinj := Option.some.inj h
          exact ⟨i, (congrArg Prod.snd hinj).symm, (congrArg Prod.fst hinj).symm⟩
        · exact Option.noConfusion h
      · split at h
        · split at h
          · next i _ =>
            have hinj := Option.some.inj h
            exact ⟨i, (congrArg Prod.snd hinj).symm, (congrArg Prod.fst hinj).symm⟩
          · exact Option.noConfusion h
        · exact Option.noConfusion h
    obtain ⟨i, hrep, hk⟩ := hrep
    have h1 : (rest.take i).length ≤ rest.length := by
      simp [List.length_take]
    have h2 : (rest.take i).length ≤ i := by
      simp [List.length_take]
    subst hrep hk
    simp only [List.length_cons]
    omega
  · exact Option.noConfusion h

theorem mEmph_ok : MatcherOk mEmph := by
  intro prev s k rep h
  cases s with
  | nil => simp [mEmph] at h
  | cons a rest =>
    simp only [mEmph] at h
    have hrep : ∃ i, rep = rest.take i ∧ k = 1 + i + 1 := by
      split at h
      · split at h
        · next i _ =>
          have hinj := Option.some.inj h
          exact ⟨i, (congrArg Prod.snd hinj).symm, (congrArg Prod.fst hinj).symm⟩
        · exact Option.noConfusion h
      · split at h
        · split at h
          · next i _ =>
            have hinj := Option.some.inj h
            exact ⟨i, (congrArg Prod.snd hinj).symm, (congrArg Prod.fst hinj).symm⟩
          · exact Option.noConfusion h
        · exact Option.noConfusion h
    obtain ⟨i, hrep, hk⟩ := hrep
    have h1 : (rest.take i).length ≤ rest.length := by simp [List.length_take]
    have h2 : (rest.take i).length ≤ i := by simp [List.length_take]
    subst hrep hk
    simp only [List.length_cons]
    omega

theorem mStrike_ok : MatcherOk mStrike := by
  intro prev s k rep h
  unfold mStrike at h
  split at h
  · next a b rest =>
    have hrep : ∃ i, rep = rest.take i ∧ k = 2 + i + 2 := by
      split at h
      · split at h
        · next i _ =>
          have hinj := Option.some.inj h
          exact ⟨i, (congrArg Prod.snd hinj).symm, (congrArg Prod.fst hinj).symm⟩
        · exact Option.noConfusion h
      · exact Option.noConfusion h
    obtain ⟨i, hrep, hk⟩ := hrep
    have h1 : (rest.take i).length ≤ rest.length := by simp [List.length_take]
    have h2 : (rest.take i).length ≤ i := by simp [List.length_take]
    subst hrep hk
    simp only [List.length_cons]
    omega
  · exact Option.noConfusion h

theorem mHighlight_ok : MatcherOk mHighlight := by
  intro prev s k rep h
  unfold mHighlight at h
  split at h
  · next a b rest =>
    have hrep : ∃ i, rep = rest.take i ∧ k = 2 + i + 2 := by
      split at h
      · split at h
        · next i _ =>
          have hinj := Option.some.inj h
          exact ⟨i, (congrArg Prod.snd hinj).symm, (congrArg Prod.fst hinj).symm⟩
        · exact Option.noConfusion h
      · exact Option.noConfusion h
    obtain ⟨i, hrep, hk⟩ := hrep
    have h1 : (rest.take i).length ≤ rest.length := by simp [List.length_take]
    have h2 : (rest.take i).length ≤ i := by simp [List.length_take]
    subst hrep hk
    simp only [List.length_cons]
    omega
  · exact Option.noConfusion h

theorem mLink_ok : MatcherOk mLink := by
  intro prev s k rep h
  cases s with
  | nil => simp [mLink] at h
  | cons c rest =>
    simp only [mLink] at h
    have hrep : rep = rest.takeWhile (fun x => !(x == ']')) ∧
        ∃ u, k = 1 + (rest.takeWhile (fun x => !(x == ']'))).length + 2 + u + 1 := by
      split at h
      · split at h
        · exact Option.noConfusion h
        · split at h
          · next r3 _ =>
            split at h
            · exact Option.noConfusion h
            · split at h
              · next u2 _ =>
                have hinj := Option.some.inj h
                exact ⟨(congrArg Prod.snd hinj).symm,
                  (r3.takeWhile (fun x => !(x == ')'))).length,
                  (congrArg Prod.fst hinj).symm⟩
              · exact Option.noConfusion h
          · exact Option.noConfusion h
      · exact Option.noConfusion h
    obtain ⟨hrep, u, hk⟩ := hrep
    have h1 := takeWhile_len_le (fun x => !(x == ']')) rest
    subst hrep hk
    simp only [List.length_cons]
    omega

theorem mWikiPiped_ok : MatcherOk mWikiPiped := by
  intro prev s k rep h
  unfold mWikiPiped at h
  split at h
  · next a b rest =>
    have hrep : ∃ r3 : List Char, rep = r3.takeWhile (fun x => !(x == ']')) ∧
        r3.length + 2 ≤ (a :: b :: rest).length ∧
        ∃ t, k = 2 + t + 1 + (r3.takeWhile (fun x => !(x == ']'))).length + 2 := by
      split at h
      · split at h
        · exact Option.noConfusion h
        · split at h
          · next r3 hdrop =>
            split at h
            · exact Option.noConfusion h
            · split at h
              · next c1 c2 r4 _ =>
                have hinj := Option.some.inj h
                refine ⟨r3, (congrArg Prod.snd hinj).symm, ?_,
                  (rest.takeWhile (fun x => !(x == ']') && !(x == '|'))).length,
                  (congrArg Prod.fst hinj).symm⟩
                have := drop_eq_cons_len hdrop
                simp only [List.length_cons]
                omega
              · exact Option.noConfusion h
          · exact Option.noConfusion h
      · exact Option.noConfusion h
    obtain ⟨r3, hrep, hr3, t, hk⟩ := hrep
    have h1 := takeWhile_len_le (fun x => !(x == ']')) r3
    subst hrep hk
    simp only [List.length_cons] at *
    omega
  · exact Option.noConfusion h

theorem mWikiBare_ok : MatcherOk mWikiBare := by
  intro prev s k rep h
  unfold mWikiBare at h
  split at h
  · next a b rest =>
    have hrep : rep = rest.takeWhile (fun x => !(x == ']')) ∧
        k = 2 + (rest.takeWhile (fun x => !(x == ']'))).length + 2 := by
      split at h
      · split at h
        · exact Option.noConfusion h
        · split at h
          · next c1 c2 r4 _ =>
            have hinj := Option.some.inj h
            exact ⟨(congrArg Prod.snd hinj).symm, (congrArg Prod.fst hinj).symm⟩
          · exact Option.noConfusion h
      · exact Option.noConfusion h
    obtain ⟨hrep, hk⟩ := hrep
    have h1 := takeWhile_len_le (fun x => !(x == ']')) rest
    subst hrep hk
    simp only [List.length_cons]
    omega
  · exact Option.noConfusion h

theorem joinNl_cons_len (l : List Char) (ls : List (List Char)) :
    (joinNl ls).length ≤ (joinNl (l :: ls)).length := by
  cases ls with
  | nil => simp [joinNl]
  | cons x xs => simp [joinNl]; omega

theorem joinNl_drop_len : ∀ (ls : List (List Char)) (k : Nat),
    (joinNl (ls.drop k)).length ≤ (joinNl ls).length := by
  intro ls
  induction ls with
  | nil => intro k; simp
  | cons l ls ih =>
    intro k
    cases k with
    | zero => exact Nat.le_refl _
    | succ k =>
      calc (joinNl ((l :: ls).drop (k + 1))).length
          = (joinNl (ls.drop k)).length := by simp
        _ ≤ (joinNl ls).length := ih k
        _ ≤ (joinNl (l :: ls)).length := joinNl_cons_len l ls

theorem splitNl_ne_nil : ∀ s : List Char, splitNl s ≠ [] := by
  intro s
  cases s with
  | nil => simp [splitNl]
  | cons c rest =>
    unfold splitNl
    split
    · simp
    · split
      · simp
      · simp

theorem joinNl_splitNl : ∀ s : List Char, joinNl (splitNl s) = s := by
  intro s
  induction s with
  | nil => rfl
  | cons c rest ih =>
    unfold splitNl
    by_cases hc : c = '\n'
    · rw [if_pos hc]
      cases hq : splitNl rest with
      | nil => exact absurd hq (splitNl_ne_nil rest)
      | cons l ls =>
        rw [hq] at ih
        simp [joinNl, hc, ← ih]
    · rw [if_neg hc]
      cases hq : splitNl rest with
      | nil => exact absurd hq (splitNl_ne_nil rest)
      | cons l ls =>
        rw [hq] at ih
        cases ls with
        | nil => simp [joinNl] at *; rw [← ih]
        | cons l2 ls2 => simp [joinNl] at *; rw [← ih]

theorem removeFrontmatter_len_le (text : List Char) :
    (removeFrontmatter text).length ≤ text.length := by
  unfold removeFrontmatter
  split
  · split
    · calc (joinNl ((splitNl text).drop _)).length
          ≤ (joinNl (splitNl text)).length := joinNl_drop_len _ _
        _ = text.length := by rw [joinNl_splitNl]
    · exact Nat.le_refl _
  · exact Nat.le_refl _

/-- C2 chain: every stage of `cleanText` is length-nonincreasing. -/
theorem cleanText_len_le (settings : AnalysisSettings) (text : List Char) :
    (cleanText settings text).length ≤ text.length := by
  unfold cleanText
  split
  · simp
  · have h0 := removeFrontmatter_len_le text
    have h1 := replaceAll_len_le mFence (asDel_ok mFenceK) (removeFrontmatter text)
    have h2 := replaceAll_len_le mInlineCode (asDel_ok mInlineK)
      (replaceAll mFence (removeFrontmatter text))
    split
    · have h3 := replaceAll_len_le mCallout (asDel_ok mCalloutK)
        (replaceAll mInlineCode (replaceAll mFence (removeFrontmatter text)))
      have h4 := replaceAll_len_le mBareQuote (asDel_ok mBareQuoteK)
        (replaceAll mCallout
          (replaceAll mInlineCode (replaceAll mFence (removeFrontmatter text))))
      omega
    · omega

/-- C9 chain: every stage of the markdown-stripping character count is
length-nonincreasing. -/
theorem countCharacters_strip_le (settings : AnalysisSettings)
    (originalText cleanedText : List Char) :
    countCharacters settings originalText cleanedText ≤ cleanedText.length := by
  unfold countCharacters
  split
  · have g1 := replaceAll_len_le mLink mLink_ok cleanedText
    have g2 := replaceAll_len_le mWikiPiped mWikiPiped_ok
      (replaceAll mLink cleanedText)
    have g3 := replaceAll_len_le mWikiBare mWikiBare_ok
      (replaceAll mWikiPiped (replaceAll mLink cleanedText))
    have g4 := replaceAll_len_le mImage (asDel_ok mImageK)
      (replaceAll mWikiBare (replaceAll mWikiPiped (replaceAll mLink cleanedText)))
    have g5 := replaceAll_len_le mBold mBold_ok
      (replaceAll mImage
        (replaceAll mWikiBare (replaceAll mWikiPiped (replaceAll mLink cleanedText))))
    have g6 := replaceAll_len_le mEmph mEmph_ok
      (replaceAll mBold
        (replaceAll mImage
          (replaceAll mWikiBare
            (replaceAll mWikiPiped (replaceAll mLink cleanedText)))))
    have g7 := replaceAll_len_le mStrike mStrike_ok
      (replaceAll mEmph
        (replaceAll mBold
          (replaceAll mImage
            (replaceAll mWikiBare
              (replaceAll mWikiPiped (replaceAll mLink cleanedText))))))
    have g8 := replaceAll_len_le mHighlight mHighlight_ok
      (replaceAll mStrike
        (replaceAll mEmph
          (replaceAll mBold
            (replaceAll mImage
              (replaceAll mWikiBare
                (replaceAll mWikiPiped (replaceAll mLink cleanedText)))))))
    have g9 := replaceAll_len_le mHeader (asDel_ok mHeaderK)
      (replaceAll mHighlight
        (replaceAll mStrike
          (replaceAll mEmph
            (replaceAll mBold
              (replaceAll mImage
                (replaceAll mWikiBare
                  (replaceAll mWikiPiped (replaceAll mLink cleanedText))))))))
    have g10 := replaceAll_len_le mQuoteMark (asDel_ok mQuoteMarkK)
      (replaceAll mHeader
        (replaceAll mHighlight
          (replaceAll mStrike
            (replaceAll mEmph
              (replaceAll mBold
                (replaceAll mImage
                  (replaceAll mWikiBare
                    (replaceAll mWikiPiped (replaceAll mLink cleanedText)))))))))
    have g11 := replaceAll_len_le mUList (asDel_ok mUListK)
      (replaceAll mQuoteMark
        (replaceAll mHeader
          (replaceAll mHighlight
            (replaceAll mStrike
              (replaceAll mEmph
                (replaceAll mBold
                  (replaceAll mImage
                    (replaceAll mWikiBare
                      (replaceAll mWikiPiped (replaceAll mLink cleanedText))))))))))
    have g12 := replaceAll_len_le mOList (asDel_ok mOListK)
      (replaceAll mUList
        (replaceAll mQuoteMark
          (replaceAll mHeader
            (replaceAll mHighlight
              (replaceAll mStrike
                (replaceAll mEmph
                  (replaceAll mBold
                    (replaceAll mImage
                      (replaceAll mWikiBare
                        (replaceAll mWikiPiped (replaceAll mLink cleanedText)))))))))))
    have g13 := replaceAll_len_le mHRule (asDel_ok mHRuleK)
      (replaceAll mOList
        (replaceAll mUList
          (replaceAll mQuoteMark
            (replaceAll mHeader
              (replaceAll mHighlight
                (replaceAll mStrike
                  (replaceAll mEmph
                    (replaceAll mBold
                      (replaceAll mImage
                        (replaceAll mWikiBare
                          (replaceAll mWikiPiped (replaceAll mLink cleanedText))))))))))))
    have g14 := replaceAll_len_le mHtml (asDel_ok mHtmlK)
      (replaceAll mHRule
        (replaceAll mOList
          (replaceAll mUList
            (replaceAll mQuoteMark
              (replaceAll mHeader
                (replaceAll mHighlight
                  (replaceAll mStrike
                    (replaceAll mEmph
                      (replaceAll mBold
                        (replaceAll mImage
                          (replaceAll mWikiBare
                            (replaceAll mWikiPiped
                              (replaceAll mLink cleanedText)))))))))))))
    have g15 := replaceAll_len_le mWsCollapse mWsCollapse_ok
      (stripMarkdown cleanedText)
    have g16 := trim_len_le (replaceAll mWsCollapse (stripMarkdown cleanedText))
    unfold stripMarkdown at g15 g16 ⊢
    omega
  · exact Nat.le_refl _

theorem foldC_dot {c : Char} (h : foldC c = 46) : c = '.' := by
  unfold foldC at h
  split at h
  · omega
  · exact char_eq_of_toNat_eq h

theorem ciHeadMatch_dot : ∀ (p s : List Char),
    ciHeadMatch p s = true → '.' ∈ p → '.' ∈ s := by
  intro p
  induction p with
  | nil => intro s _ hp; simp at hp
  | cons x ps ih =>
    intro s hm hp
    cases s with
    | nil => simp [ciHeadMatch] at hm
    | cons c cs =>
      simp only [ciHeadMatch, Bool.and_eq_true, beq_iff_eq] at hm
      rcases List.mem_cons.mp hp with hx | hx
      · subst hx
        have : c = '.' := foldC_dot (by rw [← hm.1]; rfl)
        simp [this]
      · exact List.mem_cons_of_mem c (ih cs hm.2 hx)

theorem mExc_none_of_noDot (ex : List Char) (hex : '.' ∈ ex) :
    ∀ prev s, (∀ c ∈ s, c ≠ '.') → mExc ex prev s = none := by
  intro prev s hs
  unfold mExc
  cases s with
  | nil => rfl
  | cons c cs =>
    have : ¬ (boundaryB prev c && ciHeadMatch ex (c :: cs)) = true := by
      intro hcond
      have hci := (Bool.and_eq_true _ _ |>.mp hcond).2
      have := ciHeadMatch_dot ex (c :: cs) hci hex
      exact hs '.' this rfl
    simp [this]

theorem replaceAll_mExc_id (ex : List Char) (hex : '.' ∈ ex) (s : List Char)
    (hs : ∀ c ∈ s, c ≠ '.') : replaceAll (mExc ex) s = s :=
  rgo_id_of_none (mExc ex) (fun c => c ≠ '.')
    (mExc_none_of_noDot ex hex) s.length none s hs

theorem foldl_mExc_id : ∀ (exs : List String), (∀ ex ∈ exs, '.' ∈ ex.toList) →
    ∀ s : List Char, (∀ c ∈ s, c ≠ '.') →
    exs.foldl (fun t ex => replaceAll (mExc ex.toList) t) s = s := by
  intro exs
  induction exs with
  | nil => intro _ s _; rfl
  | cons e es ih =>
    intro hd s hs
    have h1 : replaceAll (mExc e.toList) s = s :=
      replaceAll_mExc_id e.toList (hd e (by simp)) s hs
    simp only [List.foldl_cons, h1]
    exact ih (fun ex hex => hd ex (by simp [hex])) s hs

theorem applyExceptions_noDot (s : List Char) (hs : ∀ c ∈ s, c ≠ '.') :
    applyExceptions s = s := by
  unfold applyExceptions
  exact foldl_mExc_id exceptions (by decide) s hs

theorem cleanText_of_all_space (settings : AnalysisSettings) (text : List Char)
    (h : ∀ c ∈ text, isSpace c = true) : cleanText settings text = [] := by
  unfold cleanText
  rw [if_pos (Or.inr (trim_eq_nil_of_all h))]

theorem fmCloseIdx_none : ∀ (ls : List (List Char)),
    (∀ l ∈ ls, trim l ≠ fmDelim) → ∀ i, fmCloseIdx ls i = none := by
  intro ls
  induction ls with
  | nil => intro _ i; rfl
  | cons l ls ih =>
    intro h i
    unfold fmCloseIdx
    rw [if_neg (h l (by simp))]
    exact ih (fun x hx => h x (by simp [hx])) (i + 1)

/-
### The claims
-/

/-- C1: for every raw text that is empty or consists only of whitespace
characters, and for every settings value, the analysis pipeline returns the
all-zero result. -/
theorem analyze_whitespace_zero (settings : AnalysisSettings) (text : List Char)
    (h : ∀ c ∈ text, isSpace c = true) :
    analyze settings text = ⟨0, 0, 0⟩ := by
  have hc := cleanText_of_all_space settings text h
  unfold analyze
  rw [hc]
  obtain ⟨ic, sm⟩ := settings
  cases sm <;> rfl

/-- Witness for C1 at the spec's example input `"   \n\t "`. -/
theorem analyze_whitespace_zero_witness :
    (∀ c ∈ ("   \n\t ".toList), isSpace c = true)
    ∧ analyze ⟨false, true⟩ ("   \n\t ".toList) = ⟨0, 0, 0⟩ :=
  ⟨by decide, analyze_whitespace_zero ⟨false, true⟩ ("   \n\t ".toList) (by decide)⟩

/-- C2: for every input text and every value of the `ignoreCallouts` setting,
the cleaned text produced by `cleanText` is at most as long as the input. -/
theorem cleanedText_length_invariant (settings : AnalysisSettings)
    (text : List Char) : (cleanText settings text).length ≤ text.length :=
  cleanText_len_le settings text

/-- C3: `countSentences` suppresses the periods of the fixed case-insensitive
abbreviation list (their placeholder forms contain no sentence terminator), so
`"Dr. Smith went home."` — in either letter case — counts as one sentence;
the anchoring at word boundaries keeps `"gave."` from being suppressed as a
mid-word `"Ave."`. -/
theorem countSentences_abbreviations :
    countSentences ("Dr. Smith went home.".toList) = 1
    ∧ countSentences ("DR. Smith went home.".toList) = 1
    ∧ countSentences ("I gave. Stop.".toList) = 2
    ∧ exceptions.all
        (fun ex => (canon ex.toList).all (fun c => !(isTermCh c))) = true :=
  ⟨by decide, by decide, by decide, by decide⟩

/-- C4: `countSentences` replaces three consecutive periods, wherever they
occur, with a placeholder that is distinct from the abbreviation placeholder
and contains no sentence terminator, so `"Wait... what?"` counts as one
sentence. -/
theorem countSentences_ellipsis :
    countSentences ("Wait... what?".toList) = 1
    ∧ (∀ (prev : Option Char) (rest : List Char),
        mEllipsis prev ('.' :: '.' :: '.' :: rest) = some (3, ellipsisPlaceholder))
    ∧ ellipsisPlaceholder ≠ periodPlaceholder
    ∧ ellipsisPlaceholder.all (fun c => !(isTermCh c)) = true := by
  refine ⟨by decide, ?_, by decide, by decide⟩
  intro prev rest
  rfl

/-- C5: `removeFrontmatter` returns its input unchanged when the input does
not begin with `---`, and also when no subsequent line trims to exactly `---`;
otherwise it keeps exactly the lines after the first closing `---` line,
rejoined with newlines, as on the spec's example. -/
theorem removeFrontmatter_spec :
    (∀ t : List Char, startsWithFm t = false → removeFrontmatter t = t)
    ∧ (∀ t : List Char, (∀ l ∈ (splitNl t).tail, trim l ≠ fmDelim) →
        removeFrontmatter t = t)
    ∧ removeFrontmatter ("---\nkey: v\n---\nBody.".toList) = "Body.".toList := by
  refine ⟨?_, ?_, by decide⟩
  · intro t ht
    unfold removeFrontmatter
    rw [ht]
    simp
  · intro t ht
    have hnone : fmCloseIdx (splitNl t).tail 1 = none :=
      fmCloseIdx_none (splitNl t).tail ht 1
    unfold removeFrontmatter
    rw [hnone]
    split <;> rfl

/-- Witness for C5: a text without opening delimiter, and a malformed
frontmatter without closing delimiter, both pass through unchanged. -/
theorem removeFrontmatter_spec_witness :
    removeFrontmatter ("No front matter.".toList) = "No front matter.".toList
    ∧ removeFrontmatter ("---\ntitle: open only".toList)
        = "---\ntitle: open only".toList :=
  ⟨removeFrontmatter_spec.1 ("No front matter.".toList) (by decide),
   removeFrontmatter_spec.2.1 ("---\ntitle: open only".toList) (by decide)⟩

/-- C6: with `ignoreCallouts = true` the cleaning removes an entire callout
block — the header line and every immediately following block-quote line —
including callouts ending at end of input; a document consisting only of a
callout yields the all-zero result for either character-count policy. -/
theorem callout_removal_all_zero :
    (∀ b : Bool,
      analyze ⟨true, b⟩ ("> [!note]\n> content here".toList) = ⟨0, 0, 0⟩)
    ∧ (∀ b : Bool,
      cleanText ⟨true, b⟩ ("> [!note]\n> line one\n> line two".toList) = [])
    ∧ (∀ b : Bool,
      cleanText ⟨true, b⟩ ("> [!warning] title\n> inside\nAfter.".toList)
        = "After.".toList) := by
  refine ⟨?_, ?_, ?_⟩ <;> (intro b; cases b <;> decide)

/-- C7: with the strip-markdown flag set, `countCharacters` counts the
markdown-stripped, whitespace-collapsed, trimmed text: `"**bold** text"`
counts the 9 characters of `"bold text"` rather than its 13 raw characters. -/
theorem countCharacters_strips_markdown (ic : Bool) :
    countCharacters ⟨ic, true⟩ ("**bold** text".toList) ("**bold** text".toList)
      = ("bold text".toList).length
    ∧ ("bold text".toList).length = 9
    ∧ ("**bold** text".toList).length = 13 := by
  cases ic <;> exact ⟨by decide, by decide, by decide⟩

/-- C8 (counterexample): the abbreviation pass does not replace each matched
period by a single placeholder character leaving all other characters intact:
on `"dr. x"` it rewrites the match to `"DrPERIOD_PLACEHOLDER"`, changing the
length and the letter case of the first character. -/
theorem exceptionStep_not_single_char :
    applyExceptions ("dr. x".toList) = "DrPERIOD_PLACEHOLDER x".toList
    ∧ (applyExceptions ("dr. x".toList)).length ≠ ("dr. x".toList).length
    ∧ (applyExceptions ("dr. x".toList)).headD ' ' ≠ 'd' := by
  exact ⟨by decide, by decide, by decide⟩

/-- C8 (amended): the abbreviation pass replaces each matched occurrence by
the exception's canonical list spelling with every period replaced by the
string `"PERIOD_PLACEHOLDER"`, which contains no sentence terminator; text
containing no period at all is left entirely unchanged. -/
theorem exceptionStep_frame :
    periodPlaceholder.all (fun c => !(isTermCh c)) = true
    ∧ (∀ text : List Char, (∀ c ∈ text, c ≠ '.') → applyExceptions text = text)
    ∧ applyExceptions ("dr. Smith went home.".toList)
        = "DrPERIOD_PLACEHOLDER Smith went home.".toList := by
  refine ⟨by decide, ?_, by decide⟩
  exact fun text h => applyExceptions_noDot text h

/-- Witness for the amended C8 on a period-free input. -/
theorem exceptionStep_frame_witness :
    (∀ c ∈ ("hello there!".toList), c ≠ '.')
    ∧ applyExceptions ("hello there!".toList) = "hello there!".toList :=
  ⟨by decide, exceptionStep_frame.2.1 ("hello there!".toList) (by decide)⟩

/-- C9: with the strip-markdown flag set, the character count never exceeds
the length of the cleaned text it counts. -/
theorem countCharacters_stripped_le (ic : Bool)
    (originalText cleanedText : List Char) :
    countCharacters ⟨ic, true⟩ originalText cleanedText ≤ cleanedText.length :=
  countCharacters_strip_le ⟨ic, true⟩ originalText cleanedText

/-- C10: the `removeFrontmatter` of src/main.js and the `removeFrontmatter` of
src/unnamed/part_000 are extensionally equal (their source text is
identical). -/
theorem removeFrontmatter_versions_agree (t : List Char) :
    removeFrontmatter t = Legacy.removeFrontmatter t := rfl
